import Mathlib

/-!
Verification of the ARIMA forecasting pipeline in `pages/utils/model_train.py`.

The pipeline's own control flow (differencing loop, min-max scaling, AIC grid
search, train/test split, forecast frame construction) is embedded directly.
The external numerical collaborators (the augmented Dickey-Fuller test from
statsmodels, the ARIMA fitting routine, and its forecast object) are opaque
numerical procedures; they are abstracted as oracle parameters, with only
their documented interface laws recorded (lengths of returned forecast
vectors, nonnegativity of standard errors).  Floating-point values are
modelled as rationals.
-/

namespace ModelTrain

/-! ### Rounding (Python `round(x, n)`, banker's rounding) -/

/-- Round a rational to the nearest integer, ties to even (Python `round`). -/
def roundHalfEven (x : ℚ) : ℤ :=
  if x - Int.floor x < 1/2 then Int.floor x
  else if 1/2 < x - Int.floor x then Int.floor x + 1
  else if 2 ∣ Int.floor x then Int.floor x else Int.floor x + 1

/-- Python `round(x, 4)` on rationals. -/
def round4 (x : ℚ) : ℚ := (roundHalfEven (x * 10000) : ℚ) / 10000

/-! ### Stationarity (`stationary_check`, `get_differencing_order`)

`adfuller` is the external augmented Dickey-Fuller test; it is abstracted as
an oracle `adf : List ℚ → ℚ` returning the test's p-value for a series. -/

/-- Embeds `pandas.Series.diff().dropna()`: consecutive differences, dropping the
leading undefined entry. -/
def diff_dropna (xs : List ℚ) : List ℚ :=
  List.zipWith (fun a b => a - b) xs.tail xs

/-- The `stationary_check` function: p-value of the ADF test, rounded to 4 decimals. -/
def stationary_check (adf : List ℚ → ℚ) (xs : List ℚ) : ℚ :=
  round4 (adf xs)

/-- The `for _ in range(3)` loop body of `get_differencing_order`. -/
def diffLoop (adf : List ℚ → ℚ) : ℕ → List ℚ → ℕ → ℕ
  | 0, _, d => d
  | k + 1, s, d =>
    if stationary_check adf s ≤ 1/20 then d
    else diffLoop adf k (diff_dropna s) (d + 1)

/-- The `get_differencing_order` function: difference up to 3 times until the rounded ADF
p-value is at most 0.05, returning the number of differences applied. -/
def get_differencing_order (adf : List ℚ → ℚ) (xs : List ℚ) : ℕ :=
  diffLoop adf 3 xs 0

/-- Iterated (`k`-fold) application of `diff_dropna` (for stating the loop's meaning). -/
def iterDiff : ℕ → List ℚ → List ℚ
  | 0, xs => xs
  | k + 1, xs => iterDiff k (diff_dropna xs)

/-! ### Scaling (`scaling`, `inverse_scaling`)

`sklearn.preprocessing.MinMaxScaler` with `feature_range=(0, 1)`: the fitted
state is the observed data minimum and maximum; a zero range is replaced by 1
(`_handle_zeros_in_scale`), so that transforming maps every value of a
constant series to 0 rather than dividing by zero. -/

/-- Fitted state of a `MinMaxScaler`. -/
structure MinMaxState where
  dataMin : ℚ
  dataMax : ℚ
deriving DecidableEq

/-- The denominator actually used by the scaler: the observed range, with a
zero range replaced by 1. -/
def handledScale (st : MinMaxState) : ℚ :=
  if st.dataMax - st.dataMin = 0 then 1 else st.dataMax - st.dataMin

/-- Transform of a single value: `(x - data_min) / handled_range`. -/
def transform1 (st : MinMaxState) (x : ℚ) : ℚ :=
  (x - st.dataMin) / handledScale st

/-- Inverse transform of a single value: `y * handled_range + data_min`. -/
def inverse1 (st : MinMaxState) (y : ℚ) : ℚ :=
  y * handledScale st + st.dataMin

/-- Minimum of a list of values (the scaler's fitted `data_min_`). -/
def listMin : List ℚ → ℚ
  | [] => 0
  | x :: xs => xs.foldl min x

/-- Maximum of a list of values (the scaler's fitted `data_max_`). -/
def listMax : List ℚ → ℚ
  | [] => 0
  | x :: xs => xs.foldl max x

/-- The `scaling` function: fit a `MinMaxScaler` to the series and return the scaled
series together with the fitted scaler state. -/
def scaling (xs : List ℚ) : List ℚ × MinMaxState :=
  (xs.map (transform1 ⟨listMin xs, listMax xs⟩), ⟨listMin xs, listMax xs⟩)

/-- The `inverse_scaling` function: apply the given state's inverse transform to each
value.  The function performs no check that the state matches the data. -/
def inverse_scaling (st : MinMaxState) (ys : List ℚ) : List ℚ :=
  ys.map (inverse1 st)

/-! ### Order selection (`_best_arima_order`)

`ARIMA(data, order=(p, d, q)).fit()` is external; for a fixed series it is
abstracted as `fitAIC : ℕ → ℕ → Option ℚ`, giving the AIC of the fitted
model at `(p, q)` (with `d` fixed), or `none` when the fit raises. -/

/-- The searched autoregressive lags, in iteration order. -/
def p_candidates : List ℕ := [5, 10, 20]

/-- The searched moving-average lags, in iteration order. -/
def q_candidates : List ℕ := [0, 5, 10]

/-- The grid of `(p, q)` candidates in the nested-loop iteration order. -/
def gridCandidates : List (ℕ × ℕ) :=
  p_candidates.flatMap fun p => q_candidates.map fun q => (p, q)

/-- The full order attempted for a grid cell. -/
def orderOf (d : ℕ) (pq : ℕ × ℕ) : ℕ × ℕ × ℕ := (pq.1, d, pq.2)

/-- One iteration of the grid-search loop: a failed fit leaves the running
state unchanged; a successful fit replaces the running best exactly when its
AIC is strictly below the best AIC seen (`none` stands for the initial
`np.inf`). -/
def gridStep (fitAIC : ℕ → ℕ → Option ℚ) (d : ℕ)
    (st : Option ℚ × (ℕ × ℕ × ℕ)) (pq : ℕ × ℕ) : Option ℚ × (ℕ × ℕ × ℕ) :=
  match fitAIC pq.1 pq.2 with
  | none => st
  | some a =>
    match st.1 with
    | none => (some a, orderOf d pq)
    | some b => if a < b then (some a, orderOf d pq) else st

/-- The `_best_arima_order` function: fold the grid-search loop over the candidate grid,
starting from best AIC `np.inf` and fallback order `(20, d, 10)`. -/
def best_arima_order (fitAIC : ℕ → ℕ → Option ℚ) (d : ℕ) : ℕ × ℕ × ℕ :=
  (gridCandidates.foldl (gridStep fitAIC d) (none, (20, d, 10))).2

/-- The successful fits of a candidate list, in iteration order, paired with
their AIC. -/
def successes (fitAIC : ℕ → ℕ → Option ℚ) (d : ℕ) (l : List (ℕ × ℕ)) :
    List (ℚ × (ℕ × ℕ × ℕ)) :=
  l.filterMap fun pq => (fitAIC pq.1 pq.2).map fun a => (a, orderOf d pq)

/-- First element of the list attaining the minimal first component
(earlier elements win ties). -/
def firstWithMin : List (ℚ × (ℕ × ℕ × ℕ)) → Option (ℚ × (ℕ × ℕ × ℕ))
  | [] => none
  | x :: xs =>
    match firstWithMin xs with
    | none => some x
    | some y => some (if y.1 < x.1 then y else x)

/-- Total version of `firstWithMin` seeded with a current best. -/
def firstWithMinD (x : ℚ × (ℕ × ℕ × ℕ)) (l : List (ℚ × (ℕ × ℕ × ℕ))) :
    ℚ × (ℕ × ℕ × ℕ) :=
  match firstWithMin l with
  | none => x
  | some y => if y.1 < x.1 then y else x

/-- Modelled from the spec's words (section 4.3): record the information
criterion of every candidate whose fit succeeds, return the order with the
lowest AIC seen, the first candidate in iteration order winning ties, and
the fallback order `(20, d, 10)` when every candidate fails. -/
def select_order_spec (fitAIC : ℕ → ℕ → Option ℚ) (d : ℕ) : ℕ × ℕ × ℕ :=
  match firstWithMin (successes fitAIC d gridCandidates) with
  | none => (20, d, 10)
  | some y => y.2

/-! ### The ARIMA fitting oracle

`fit_model` calls `ARIMA(data, order).fit().get_forecast(steps)`.  The
numerical content is abstract; the recorded interface laws are the
documented ones: `predicted_mean` and the forecast standard errors have
exactly `steps` entries, standard errors are nonnegative, and the 95%
two-sided confidence interval is `predicted_mean ± z * se` for the positive
normal critical value `z = norm.ppf(0.975)`. -/

structure ArimaOracle where
  aic : List ℚ → (ℕ × ℕ × ℕ) → Option ℚ
  predictedMean : List ℚ → (ℕ × ℕ × ℕ) → ℕ → List ℚ
  seMean : List ℚ → (ℕ × ℕ × ℕ) → ℕ → List ℚ
  zcrit : ℚ
  predictedMean_length :
    ∀ data o s, (predictedMean data o s).length = s
  seMean_length :
    ∀ data o s, (seMean data o s).length = s
  seMean_nonneg :
    ∀ data o s, ∀ x ∈ seMean data o s, 0 ≤ x
  zcrit_nonneg : 0 ≤ zcrit

/-- The order `fit_model` selects: the grid search run with fits on `data`
at each candidate `(p, d, q)`. -/
def chosen_order (O : ArimaOracle) (data : List ℚ) (d : ℕ) : ℕ × ℕ × ℕ :=
  best_arima_order (fun p q => O.aic data (p, d, q)) d

/-- The `fit_model` function: select the order by grid search on `data`, fit the final
model, and return the `steps`-ahead predictions, the per-step 95% confidence
intervals, and the chosen order. -/
def fit_model (O : ArimaOracle) (data : List ℚ) (d : ℕ) (steps : ℕ) :
    List ℚ × List (ℚ × ℚ) × (ℕ × ℕ × ℕ) :=
  let order := chosen_order O data d
  let preds := O.predictedMean data order steps
  let ses := O.seMean data order steps
  (preds,
   (preds.zip ses).map fun ms => (ms.1 - O.zcrit * ms.2, ms.1 + O.zcrit * ms.2),
   order)

/-! ### Evaluation (`evaluate_model`) -/

/-- Python slice `xs[:-k]` (empty when the list has at most `k` elements). -/
def pysliceDropLast (xs : List ℚ) (k : ℕ) : List ℚ :=
  xs.take (xs.length - k)

/-- Python slice `xs[-k:]` (the whole list when it has at most `k`
elements). -/
def pysliceLast (xs : List ℚ) (k : ℕ) : List ℚ :=
  xs.drop (xs.length - k)

/-- Embeds `sklearn.metrics.mean_squared_error`: mean of squared differences. -/
def meanSqErr (ytrue ypred : List ℚ) : ℚ :=
  (((ytrue.zip ypred).map fun p => (p.1 - p.2) ^ 2).sum) / (ytrue.length : ℚ)

/-- The mean squared error computed by `evaluate_model` before the square
root: the last 30 observations are held out, the model is fitted on the
remaining prefix only, and its 30-step forecast is compared to the holdout. -/
def evaluate_mse (O : ArimaOracle) (xs : List ℚ) (d : ℕ) : ℚ :=
  meanSqErr (pysliceLast xs 30) (fit_model O (pysliceDropLast xs 30) d 30).1

/-- Round a real to the nearest integer, ties to even (Python `round`). -/
noncomputable def roundHalfEvenR (x : ℝ) : ℤ :=
  if x - Int.floor x < 1/2 then Int.floor x
  else if 1/2 < x - Int.floor x then Int.floor x + 1
  else if 2 ∣ Int.floor x then Int.floor x else Int.floor x + 1

/-- Python `round(x, 4)` on reals. -/
noncomputable def round4R (x : ℝ) : ℝ := (roundHalfEvenR (x * 10000) : ℝ) / 10000

/-- The `evaluate_model` function: root-mean-squared error of the holdout forecast,
rounded to 4 decimal places. -/
noncomputable def evaluate_model (O : ArimaOracle) (xs : List ℚ) (d : ℕ) : ℝ :=
  round4R (Real.sqrt ((evaluate_mse O xs d : ℚ) : ℝ))

/-! ### Forecast frames (`get_forecast`)

Dates are modelled as day numbers with day 0 a Monday, so a day `t` is a
business day exactly when `t % 7 < 5`.  `pd.date_range(start, periods, "B")`
rolls the start forward to a business day and then steps through consecutive
business days; `datetime.now() + timedelta(days=1)` is `today + 1` for the
wall-clock parameter `today`. -/

/-- Roll a day forward to the next business day (identity on business
days). -/
def nextBDayFrom (t : ℕ) : ℕ :=
  if t % 7 < 5 then t else t + (7 - t % 7)

/-- Embeds `pd.date_range(start=t, periods=n, freq="B")` as a list of days. -/
def bdayRange : ℕ → ℕ → List ℕ
  | _, 0 => []
  | t, n + 1 => nextBDayFrom t :: bdayRange (nextBDayFrom t + 1) n

/-- The `get_forecast` function: fit and forecast 30 steps, build the future business-day
index starting the day after `today`, truncate it to the number of
predictions, and return the forecast frame, the confidence frame and the
chosen order. -/
def get_forecast (O : ArimaOracle) (today : ℕ) (original_price : List ℚ)
    (d : ℕ) : List (ℕ × ℚ) × List (ℕ × ℚ × ℚ) × (ℕ × ℕ × ℕ) :=
  let steps := 30
  let r := fit_model O original_price d steps
  let idx := (bdayRange (today + 1) steps).take r.1.length
  (idx.zip r.1, idx.zip r.2.1, r.2.2)

/-- A concrete oracle whose fits all fail and whose forecasts are zero, used
to evaluate the pipeline on explicit inputs. -/
def constOracle : ArimaOracle where
  aic := fun _ _ => none
  predictedMean := fun _ _ s => List.replicate s 0
  seMean := fun _ _ s => List.replicate s 0
  zcrit := 2
  predictedMean_length := fun _ _ s => List.length_replicate s 0
  seMean_length := fun _ _ s => List.length_replicate s 0
  seMean_nonneg := fun _ _ s x hx => by
    rw [List.eq_of_mem_replicate hx]
  zcrit_nonneg := by norm_num

/-! ### Lemmas: grid search -/

lemma firstWithMin_cons (x : ℚ × (ℕ × ℕ × ℕ)) (l : List (ℚ × (ℕ × ℕ × ℕ))) :
    firstWithMin (x :: l) = some (firstWithMinD x l) := by
  cases h : firstWithMin l <;> simp [firstWithMin, firstWithMinD, h]

lemma firstWithMinD_fst_le (x : ℚ × (ℕ × ℕ × ℕ)) (l : List (ℚ × (ℕ × ℕ × ℕ))) :
    (firstWithMinD x l).1 ≤ x.1 := by
  unfold firstWithMinD
  cases firstWithMin l with
  | none => exact le_refl _
  | some y =>
    show (if y.1 < x.1 then y else x).1 ≤ x.1
    by_cases h : y.1 < x.1
    · rw [if_pos h]; exact le_of_lt h
    · rw [if_neg h]

lemma firstWithMinD_cons (x y : ℚ × (ℕ × ℕ × ℕ)) (l : List (ℚ × (ℕ × ℕ × ℕ))) :
    firstWithMinD x (y :: l) =
      if (firstWithMinD y l).1 < x.1 then firstWithMinD y l else x := by
  rw [firstWithMinD, firstWithMin_cons]

lemma firstWithMinD_cons_of_lt {a b : ℚ} {p o : ℕ × ℕ × ℕ}
    (l : List (ℚ × (ℕ × ℕ × ℕ))) (h : a < b) :
    firstWithMinD (b, o) ((a, p) :: l) = firstWithMinD (a, p) l := by
  rw [firstWithMinD_cons]
  exact if_pos (lt_of_le_of_lt (firstWithMinD_fst_le (a, p) l) h)

lemma firstWithMinD_cons_of_le {a b : ℚ} {p o : ℕ × ℕ × ℕ}
    (l : List (ℚ × (ℕ × ℕ × ℕ))) (hba : b ≤ a) :
    firstWithMinD (b, o) ((a, p) :: l) = firstWithMinD (b, o) l := by
  rw [firstWithMinD_cons]
  cases h : firstWithMin l with
  | none =>
    simp only [firstWithMinD, h]
    exact if_neg (not_lt.mpr hba)
  | some z =>
    simp only [firstWithMinD, h]
    by_cases hza : z.1 < a
    · rw [if_pos hza]
    · rw [if_neg hza, if_neg (not_lt.mpr hba),
        if_neg (not_lt.mpr (le_trans hba (not_lt.mp hza)))]

lemma successes_cons_none {fitAIC : ℕ → ℕ → Option ℚ} {d : ℕ} {pq : ℕ × ℕ}
    (l : List (ℕ × ℕ)) (h : fitAIC pq.1 pq.2 = none) :
    successes fitAIC d (pq :: l) = successes fitAIC d l := by
  simp [successes, List.filterMap_cons, h]

lemma successes_cons_some {fitAIC : ℕ → ℕ → Option ℚ} {d : ℕ} {pq : ℕ × ℕ}
    {a : ℚ} (l : List (ℕ × ℕ)) (h : fitAIC pq.1 pq.2 = some a) :
    successes fitAIC d (pq :: l) = (a, orderOf d pq) :: successes fitAIC d l := by
  simp [successes, List.filterMap_cons, h]

lemma foldl_gridStep_some (fitAIC : ℕ → ℕ → Option ℚ) (d : ℕ) :
    ∀ (l : List (ℕ × ℕ)) (b : ℚ) (o : ℕ × ℕ × ℕ),
      l.foldl (gridStep fitAIC d) (some b, o) =
        (some (firstWithMinD (b, o) (successes fitAIC d l)).1,
         (firstWithMinD (b, o) (successes fitAIC d l)).2)
  | [], b, o => by simp [successes, firstWithMinD, firstWithMin]
  | pq :: rest, b, o => by
    rw [List.foldl_cons]
    cases hf : fitAIC pq.1 pq.2 with
    | none =>
      have hstep : gridStep fitAIC d (some b, o) pq = (some b, o) := by
        simp [gridStep, hf]
      rw [hstep, successes_cons_none rest hf]
      exact foldl_gridStep_some fitAIC d rest b o
    | some a =>
      rw [successes_cons_some rest hf]
      by_cases hab : a < b
      · have hstep : gridStep fitAIC d (some b, o) pq = (some a, orderOf d pq) := by
          simp [gridStep, hf, hab]
        rw [hstep, firstWithMinD_cons_of_lt _ hab]
        exact foldl_gridStep_some fitAIC d rest a (orderOf d pq)
      · have hstep : gridStep fitAIC d (some b, o) pq = (some b, o) := by
          simp [gridStep, hf, hab]
        rw [hstep, firstWithMinD_cons_of_le _ (not_lt.mp hab)]
        exact foldl_gridStep_some fitAIC d rest b o

lemma foldl_gridStep_none (fitAIC : ℕ → ℕ → Option ℚ) (d : ℕ) :
    ∀ (l : List (ℕ × ℕ)) (o : ℕ × ℕ × ℕ),
      l.foldl (gridStep fitAIC d) (none, o) =
        match firstWithMin (successes fitAIC d l) with
        | none => (none, o)
        | some y => (some y.1, y.2)
  | [], o => by simp [successes, firstWithMin]
  | pq :: rest, o => by
    rw [List.foldl_cons]
    cases hf : fitAIC pq.1 pq.2 with
    | none =>
      have hstep : gridStep fitAIC d (none, o) pq = (none, o) := by
        simp [gridStep, hf]
      rw [hstep, successes_cons_none rest hf]
      exact foldl_gridStep_none fitAIC d rest o
    | some a =>
      have hstep : gridStep fitAIC d (none, o) pq = (some a, orderOf d pq) := by
        simp [gridStep, hf]
      rw [hstep, successes_cons_some rest hf, firstWithMin_cons]
      exact foldl_gridStep_some fitAIC d rest a (orderOf d pq)

lemma best_arima_order_eq_spec (fitAIC : ℕ → ℕ → Option ℚ) (d : ℕ) :
    best_arima_order fitAIC d = select_order_spec fitAIC d := by
  unfold best_arima_order select_order_spec
  rw [foldl_gridStep_none fitAIC d gridCandidates (20, d, 10)]
  cases h : firstWithMin (successes fitAIC d gridCandidates) <;> simp

lemma successes_eq_nil {fitAIC : ℕ → ℕ → Option ℚ} {d : ℕ}
    {l : List (ℕ × ℕ)} (h : ∀ p q, (p, q) ∈ l → fitAIC p q = none) :
    successes fitAIC d l = [] := by
  unfold successes
  rw [List.filterMap_eq_nil_iff]
  intro pq hpq
  rw [h pq.1 pq.2 (by simpa using hpq)]
  rfl

/-- C1: for every series (abstracted into the per-candidate fit outcome
`fitAIC`) and every differencing order `d`, the grid search ranges exactly
over p in `{5, 10, 20}` crossed with q in `{0, 5, 10}` with `d` held fixed,
skips failed fits, agrees with the specification selector (lowest AIC among
successful fits, first candidate in iteration order winning ties), and
returns the fallback `(20, d, 10)` when every candidate fit fails. -/
theorem C1_order_selection (fitAIC : ℕ → ℕ → Option ℚ) (d : ℕ) :
    best_arima_order fitAIC d = select_order_spec fitAIC d ∧
    gridCandidates =
      [(5, 0), (5, 5), (5, 10), (10, 0), (10, 5), (10, 10),
       (20, 0), (20, 5), (20, 10)] ∧
    ((∀ p q, (p, q) ∈ gridCandidates → fitAIC p q = none) →
      best_arima_order fitAIC d = (20, d, 10)) := by
  refine ⟨best_arima_order_eq_spec fitAIC d, by decide, fun h => ?_⟩
  rw [best_arima_order_eq_spec fitAIC d]
  unfold select_order_spec
  rw [successes_eq_nil h]
  rfl

/-- Witness for C1: an all-failing fit yields the fallback order. -/
theorem C1_order_selection_witness :
    best_arima_order (fun _ _ => none) 1 = (20, 1, 10) :=
  (C1_order_selection (fun _ _ => none) 1).2.2 (fun _ _ _ => rfl)

/-! ### Lemmas: scaling -/

lemma handledScale_ne_zero (st : MinMaxState) : handledScale st ≠ 0 := by
  unfold handledScale
  split_ifs with h
  · exact one_ne_zero
  · exact h

lemma inverse1_transform1 (st : MinMaxState) (x : ℚ) :
    inverse1 st (transform1 st x) = x := by
  unfold inverse1 transform1
  rw [div_mul_cancel₀ _ (handledScale_ne_zero st), sub_add_cancel]

lemma map_inverse1_map_transform1 (st : MinMaxState) :
    ∀ xs : List ℚ, (xs.map (transform1 st)).map (inverse1 st) = xs
  | [] => rfl
  | x :: rest => by
    simp only [List.map_cons, inverse1_transform1,
      map_inverse1_map_transform1 st rest]

/-- C2: applying the forward scaling transform and then the inverse
transform with the state produced by that same forward transform yields the
original series exactly, hence each element is within `1e-9` of the
corresponding input element. -/
theorem C2_scaling_roundtrip (xs : List ℚ) :
    inverse_scaling (scaling xs).2 (scaling xs).1 = xs ∧
    ∀ i : ℕ,
      |(inverse_scaling (scaling xs).2 (scaling xs).1).getD i 0 - xs.getD i 0|
        ≤ 1 / 1000000000 := by
  have h : inverse_scaling (scaling xs).2 (scaling xs).1 = xs := by
    unfold scaling inverse_scaling
    exact map_inverse1_map_transform1 _ xs
  refine ⟨h, fun i => ?_⟩
  rw [h, sub_self, abs_zero]
  norm_num

/-! ### Lemmas: differencing order -/

lemma get_differencing_order_unfold (adf : List ℚ → ℚ) (xs : List ℚ) :
    get_differencing_order adf xs =
      if stationary_check adf xs ≤ 1/20 then 0
      else if stationary_check adf (diff_dropna xs) ≤ 1/20 then 1
      else if stationary_check adf (diff_dropna (diff_dropna xs)) ≤ 1/20 then 2
      else 3 := rfl

lemma get_differencing_order_eq_zero {adf : List ℚ → ℚ} {xs : List ℚ}
    (h : stationary_check adf xs ≤ 1/20) :
    get_differencing_order adf xs = 0 := by
  rw [get_differencing_order_unfold, if_pos h]

lemma iterDiff_one (xs : List ℚ) : iterDiff 1 xs = diff_dropna xs := rfl

lemma iterDiff_two (xs : List ℚ) :
    iterDiff 2 xs = diff_dropna (diff_dropna xs) := rfl

/-- C3: the loop differences (dropping the leading undefined entry) until
the rounded ADF p-value is at most 0.05 or 3 differences have been applied;
the result is the count of differences applied: it is at most 3, it is 0 on
an already-stationary series, every series seen before stopping tested
non-stationary, and whenever the loop stops below the cap the reached
series tests stationary. -/
theorem C3_differencing_order (adf : List ℚ → ℚ) (xs : List ℚ) :
    get_differencing_order adf xs ≤ 3 ∧
    (stationary_check adf xs ≤ 1/20 → get_differencing_order adf xs = 0) ∧
    (∀ j : ℕ, j < get_differencing_order adf xs →
      ¬ stationary_check adf (iterDiff j xs) ≤ 1/20) ∧
    (get_differencing_order adf xs < 3 →
      stationary_check adf (iterDiff (get_differencing_order adf xs) xs) ≤ 1/20) := by
  rw [get_differencing_order_unfold]
  split_ifs with h0 h1 h2
  · exact ⟨by norm_num, fun _ => rfl, fun j hj => absurd hj (Nat.not_lt_zero j),
      fun _ => h0⟩
  · refine ⟨by norm_num, fun h => absurd h h0, fun j hj => ?_, fun _ => ?_⟩
    · interval_cases j
      exact h0
    · rw [iterDiff_one]; exact h1
  · refine ⟨by norm_num, fun h => absurd h h0, fun j hj => ?_, fun _ => ?_⟩
    · interval_cases j
      · exact h0
      · rw [iterDiff_one]; exact h1
    · rw [iterDiff_two]; exact h2
  · refine ⟨le_refl 3, fun h => absurd h h0, fun j hj => ?_,
      fun h => absurd h (lt_irrefl 3)⟩
    interval_cases j
    · exact h0
    · rw [iterDiff_one]; exact h1
    · rw [iterDiff_two]; exact h2

/-- Witness for C3: a test reporting p-value 0 stops the loop at once. -/
theorem C3_differencing_order_witness :
    get_differencing_order (fun _ => 0) [(1 : ℚ), 2, 3] = 0 :=
  (C3_differencing_order (fun _ => 0) [(1 : ℚ), 2, 3]).2.1 (by
    unfold stationary_check round4 roundHalfEven
    norm_num)

/-! ### Lemmas: constant series -/

lemma foldl_min_const (c : ℚ) :
    ∀ l : List ℚ, (∀ x ∈ l, x = c) → l.foldl min c = c
  | [], _ => rfl
  | y :: r, h => by
    rw [List.foldl_cons, h y (List.mem_cons_self y r), min_self]
    exact foldl_min_const c r fun x hx => h x (List.mem_cons_of_mem y hx)

lemma foldl_max_const (c : ℚ) :
    ∀ l : List ℚ, (∀ x ∈ l, x = c) → l.foldl max c = c
  | [], _ => rfl
  | y :: r, h => by
    rw [List.foldl_cons, h y (List.mem_cons_self y r), max_self]
    exact foldl_max_const c r fun x hx => h x (List.mem_cons_of_mem y hx)

lemma listMin_const {xs : List ℚ} {c : ℚ} (hne : xs ≠ [])
    (h : ∀ x ∈ xs, x = c) : listMin xs = c := by
  cases xs with
  | nil => exact absurd rfl hne
  | cons x r =>
    unfold listMin
    rw [h x (List.mem_cons_self x r)]
    exact foldl_min_const c r fun y hy => h y (List.mem_cons_of_mem x hy)

lemma listMax_const {xs : List ℚ} {c : ℚ} (hne : xs ≠ [])
    (h : ∀ x ∈ xs, x = c) : listMax xs = c := by
  cases xs with
  | nil => exact absurd rfl hne
  | cons x r =>
    unfold listMax
    rw [h x (List.mem_cons_self x r)]
    exact foldl_max_const c r fun y hy => h y (List.mem_cons_of_mem x hy)

lemma map_eq_replicate_zero :
    ∀ (xs : List ℚ) (f : ℚ → ℚ), (∀ x ∈ xs, f x = 0) →
      xs.map f = List.replicate xs.length 0
  | [], _, _ => rfl
  | x :: r, f, h => by
    rw [List.map_cons, List.length_cons, List.replicate_succ,
      h x (List.mem_cons_self x r),
      map_eq_replicate_zero r f fun y hy => h y (List.mem_cons_of_mem x hy)]

/-- C4 counterexample: the differencing order computed on a constant series
of length 40 is decided by the external stationarity test, which the code
does not constrain: a test whose p-value is identically 1 drives the loop to
its cap, returning 3, not the claimed 0. -/
theorem C4_counterexample :
    40 ≤ (List.replicate 40 (5 : ℚ)).length ∧
    listMin (List.replicate 40 (5 : ℚ)) = listMax (List.replicate 40 (5 : ℚ)) ∧
    get_differencing_order (fun _ => 1) (List.replicate 40 (5 : ℚ)) = 3 := by
  have hconst : ∀ x ∈ List.replicate 40 (5 : ℚ), x = 5 :=
    fun x hx => List.eq_of_mem_replicate hx
  have hne : List.replicate 40 (5 : ℚ) ≠ [] := by simp
  have hs : ∀ s : List ℚ, stationary_check (fun _ => 1) s = 1 := fun s => by
    unfold stationary_check round4 roundHalfEven
    norm_num
  refine ⟨by simp, ?_, ?_⟩
  · rw [listMin_const hne hconst, listMax_const hne hconst]
  · rw [get_differencing_order_unfold, if_neg (by rw [hs]; norm_num),
      if_neg (by rw [hs]; norm_num), if_neg (by rw [hs]; norm_num)]

/-- C4 (amended): for a constant series of length at least 40, the forward
scaling transform is total (a zero range is replaced by 1) and maps every
value to 0; differencing-order selection returns 0 whenever the external
stationarity test reports the constant series stationary (rounded p-value at
most 0.05) — the code itself does not guarantee the test's verdict. -/
theorem C4_constant_series (xs : List ℚ) (c : ℚ) (adf : List ℚ → ℚ)
    (hlen : 40 ≤ xs.length) (hconst : ∀ x ∈ xs, x = c)
    (hstat : stationary_check adf xs ≤ 1/20) :
    (scaling xs).1 = List.replicate xs.length 0 ∧
    get_differencing_order adf xs = 0 := by
  have hne : xs ≠ [] := by
    intro h
    rw [h] at hlen
    simp at hlen
  refine ⟨?_, get_differencing_order_eq_zero hstat⟩
  unfold scaling
  simp only
  rw [listMin_const hne hconst, listMax_const hne hconst]
  refine map_eq_replicate_zero xs _ fun x hx => ?_
  unfold transform1
  rw [hconst x hx, sub_self, zero_div]

/-- Witness for C4 (amended): a concrete constant series of length 40 with
a test reporting p-value 0. -/
theorem C4_constant_series_witness :
    (scaling (List.replicate 40 (5 : ℚ))).1 =
      List.replicate (List.replicate 40 (5 : ℚ)).length 0 ∧
    get_differencing_order (fun _ => 0) (List.replicate 40 (5 : ℚ)) = 0 :=
  C4_constant_series (List.replicate 40 (5 : ℚ)) 5 (fun _ => 0)
    (by simp) (fun x hx => List.eq_of_mem_replicate hx)
    (by unfold stationary_check round4 roundHalfEven; norm_num)

/-! ### Lemmas: business-day index -/

lemma bdayRange_succ (t n : ℕ) :
    bdayRange t (n + 1) = nextBDayFrom t :: bdayRange (nextBDayFrom t + 1) n := rfl

lemma bdayRange_length : ∀ (n t : ℕ), (bdayRange t n).length = n
  | 0, _ => rfl
  | n + 1, t => by
    rw [bdayRange_succ, List.length_cons, bdayRange_length n]

lemma nextBDayFrom_isB (t : ℕ) : nextBDayFrom t % 7 < 5 := by
  unfold nextBDayFrom
  split_ifs with h
  · exact h
  · omega

lemma bdayRange_all_bday :
    ∀ (n t : ℕ), ((bdayRange t n).all fun u => decide (u % 7 < 5)) = true
  | 0, _ => rfl
  | n + 1, t => by
    rw [bdayRange_succ, List.all_cons, bdayRange_all_bday n]
    simp [nextBDayFrom_isB t]

lemma bdayRange_head (n t : ℕ) (h : 0 < n) :
    (bdayRange t n).head? = some (nextBDayFrom t) := by
  cases n with
  | zero => exact absurd h (lt_irrefl 0)
  | succ m => rfl

lemma bdayRange_chain :
    ∀ (n t : ℕ),
      List.Chain' (fun a b => b = nextBDayFrom (a + 1)) (bdayRange t n)
  | 0, _ => List.chain'_nil
  | n + 1, t => by
    rw [bdayRange_succ, List.chain'_cons']
    refine ⟨fun y hy => ?_, bdayRange_chain n (nextBDayFrom t + 1)⟩
    cases n with
    | zero => simp [bdayRange] at hy
    | succ m =>
      rw [bdayRange_head (m + 1) _ (Nat.succ_pos m)] at hy
      simp only [Option.mem_def, Option.some.injEq] at hy
      exact hy.symm

/-- The forecast frame of `get_forecast`, with the index truncation
resolved: the index has exactly 30 business days and the predictions have
exactly 30 entries, so `take` is the identity. -/
lemma gf_fst (O : ArimaOracle) (today : ℕ) (xs : List ℚ) (d : ℕ) :
    (get_forecast O today xs d).1 =
      (bdayRange (today + 1) 30).zip
        (O.predictedMean xs (chosen_order O xs d) 30) := by
  show ((bdayRange (today + 1) 30).take
      (O.predictedMean xs (chosen_order O xs d) 30).length).zip
        (O.predictedMean xs (chosen_order O xs d) 30) = _
  rw [O.predictedMean_length,
    List.take_of_length_le (le_of_eq (bdayRange_length 30 (today + 1)))]

/-- The confidence frame of `get_forecast`, with the truncation resolved. -/
lemma gf_snd (O : ArimaOracle) (today : ℕ) (xs : List ℚ) (d : ℕ) :
    (get_forecast O today xs d).2.1 =
      (bdayRange (today + 1) 30).zip
        (((O.predictedMean xs (chosen_order O xs d) 30).zip
            (O.seMean xs (chosen_order O xs d) 30)).map
          fun ms => (ms.1 - O.zcrit * ms.2, ms.1 + O.zcrit * ms.2)) := by
  show ((bdayRange (today + 1) 30).take
      (O.predictedMean xs (chosen_order O xs d) 30).length).zip _ = _
  rw [O.predictedMean_length,
    List.take_of_length_le (le_of_eq (bdayRange_length 30 (today + 1)))]
  rfl

lemma gf_index (O : ArimaOracle) (today : ℕ) (xs : List ℚ) (d : ℕ) :
    (get_forecast O today xs d).1.map Prod.fst = bdayRange (today + 1) 30 := by
  rw [gf_fst]
  exact List.map_fst_zip _ _
    (by rw [bdayRange_length, O.predictedMean_length])

/-- C5 counterexample: the forecast index is generated from the wall clock,
not from the input timestamps.  For the input series with timestamps
`[0, 1]` (latest timestamp 1, so the day after it is day 2) evaluated when
`today = 14`, the first forecast timestamp is day 15, not day 2. -/
theorem C5_counterexample :
    ((get_forecast constOracle 14
        ([((0 : ℕ), (1 : ℚ)), (1, 2)].map Prod.snd) 0).1.map Prod.fst).headD 0
      = 15 ∧
    ([((0 : ℕ), (1 : ℚ)), (1, 2)].map Prod.fst).foldl max 0 + 1 = 2 ∧
    (15 : ℕ) ≠ 2 := by
  refine ⟨?_, by decide, by decide⟩
  rw [gf_index]
  rfl

/-- C5 (amended): `get_forecast` always returns exactly 30 forecast points
(the generated calendar has exactly the requested 30 periods and the index
is truncated to the 30 predictions); the future timestamps are consecutive
business days starting at the first business day on or after the day after
the current wall-clock date, independent of the input series. -/
theorem C5_forecast_horizon (O : ArimaOracle) (today : ℕ) (xs : List ℚ)
    (d : ℕ) :
    (get_forecast O today xs d).1.length = 30 ∧
    (get_forecast O today xs d).1.map Prod.fst = bdayRange (today + 1) 30 ∧
    ((bdayRange (today + 1) 30).all fun u => decide (u % 7 < 5)) = true ∧
    List.Chain' (fun a b => b = nextBDayFrom (a + 1))
      (bdayRange (today + 1) 30) ∧
    (bdayRange (today + 1) 30).headD 0 = nextBDayFrom (today + 1) := by
  refine ⟨?_, gf_index O today xs d, bdayRange_all_bday 30 (today + 1),
    bdayRange_chain 30 (today + 1), rfl⟩
  rw [gf_fst, List.length_zip, bdayRange_length, O.predictedMean_length]
  exact min_self 30

/-! ### C6: evaluation holdout -/

/-- C6: for a series longer than 30 observations, `evaluate_model` holds
out exactly the last 30 observations, fits (order selection included) only
on the remaining leading observations, forecasts 30 steps, and returns the
root-mean-squared error between forecast and holdout rounded to 4 decimal
places. -/
theorem C6_evaluate_holdout (O : ArimaOracle) (xs : List ℚ) (d : ℕ)
    (h : 30 < xs.length) :
    (pysliceLast xs 30).length = 30 ∧
    (pysliceDropLast xs 30).length = xs.length - 30 ∧
    pysliceDropLast xs 30 ++ pysliceLast xs 30 = xs ∧
    (fit_model O (pysliceDropLast xs 30) d 30).2.2 =
      best_arima_order (fun p q => O.aic (pysliceDropLast xs 30) (p, d, q)) d ∧
    ((fit_model O (pysliceDropLast xs 30) d 30).1).length = 30 ∧
    evaluate_model O xs d =
      round4R (Real.sqrt ((meanSqErr (pysliceLast xs 30)
        ((fit_model O (pysliceDropLast xs 30) d 30).1) : ℚ) : ℝ)) := by
  refine ⟨?_, ?_, List.take_append_drop (xs.length - 30) xs, rfl,
    O.predictedMean_length _ _ _, rfl⟩
  · unfold pysliceLast
    rw [List.length_drop]
    omega
  · unfold pysliceDropLast
    rw [List.length_take]
    omega

/-- Witness for C6 at a concrete 31-point series. -/
theorem C6_evaluate_holdout_witness :
    (pysliceLast (List.replicate 31 (1 : ℚ)) 30).length = 30 ∧
    (pysliceDropLast (List.replicate 31 (1 : ℚ)) 30).length =
      (List.replicate 31 (1 : ℚ)).length - 30 ∧
    pysliceDropLast (List.replicate 31 (1 : ℚ)) 30 ++
        pysliceLast (List.replicate 31 (1 : ℚ)) 30 =
      List.replicate 31 (1 : ℚ) ∧
    (fit_model constOracle (pysliceDropLast (List.replicate 31 (1 : ℚ)) 30)
        0 30).2.2 =
      best_arima_order
        (fun p q => constOracle.aic
          (pysliceDropLast (List.replicate 31 (1 : ℚ)) 30) (p, 0, q)) 0 ∧
    ((fit_model constOracle (pysliceDropLast (List.replicate 31 (1 : ℚ)) 30)
        0 30).1).length = 30 ∧
    evaluate_model constOracle (List.replicate 31 (1 : ℚ)) 0 =
      round4R (Real.sqrt ((meanSqErr (pysliceLast (List.replicate 31 (1 : ℚ)) 30)
        ((fit_model constOracle
          (pysliceDropLast (List.replicate 31 (1 : ℚ)) 30) 0 30).1) : ℚ) : ℝ)) :=
  C6_evaluate_holdout constOracle (List.replicate 31 (1 : ℚ)) 0
    (by simp only [List.length_replicate]; norm_num)

/-! ### C7: confidence-interval bounds -/

lemma ci_bounds_aux (z : ℚ) (hz : 0 ≤ z) :
    ∀ (ts : List ℕ) (ms ss : List ℚ), ms.length = ss.length →
      (∀ x ∈ ss, 0 ≤ x) → ∀ i : ℕ,
      ((ts.zip ((ms.zip ss).map
          fun p => (p.1 - z * p.2, p.1 + z * p.2))).getD i (0, 0, 0)).2.1
        ≤ ((ts.zip ms).getD i (0, 0)).2 ∧
      ((ts.zip ms).getD i (0, 0)).2
        ≤ ((ts.zip ((ms.zip ss).map
          fun p => (p.1 - z * p.2, p.1 + z * p.2))).getD i (0, 0, 0)).2.2
  | [], _, _, _, _, _ => by simp
  | t :: ts', [], ss, hlen, hss, i => by simp
  | t :: ts', m :: ms', [], hlen, hss, i => by simp at hlen
  | t :: ts', m :: ms', s :: ss', hlen, hss, i => by
    cases i with
    | zero =>
      have hzs : 0 ≤ z * s :=
        mul_nonneg hz (hss s (List.mem_cons_self s ss'))
      simp only [List.zip_cons_cons, List.map_cons, List.getD_cons_zero]
      constructor
      · linarith
      · linarith
    | succ j =>
      simp only [List.zip_cons_cons, List.map_cons, List.getD_cons_succ]
      exact ci_bounds_aux z hz ts' ms' ss' (by simpa using hlen)
        (fun x hx => hss x (List.mem_cons_of_mem s hx)) j

/-- C7: in every forecast returned by `get_forecast`, each point's lower
bound is at most its predicted value and the predicted value is at most the
upper bound (the per-step 95% two-sided interval is
`predicted ± z * standard error` with `z ≥ 0` and standard errors
nonnegative). -/
theorem C7_confidence_bounds (O : ArimaOracle) (today : ℕ) (xs : List ℚ)
    (d : ℕ) (i : ℕ) :
    ((get_forecast O today xs d).2.1.getD i (0, 0, 0)).2.1
      ≤ ((get_forecast O today xs d).1.getD i (0, 0)).2 ∧
    ((get_forecast O today xs d).1.getD i (0, 0)).2
      ≤ ((get_forecast O today xs d).2.1.getD i (0, 0, 0)).2.2 := by
  rw [gf_fst, gf_snd]
  exact ci_bounds_aux O.zcrit O.zcrit_nonneg (bdayRange (today + 1) 30)
    (O.predictedMean xs (chosen_order O xs d) 30)
    (O.seMean xs (chosen_order O xs d) 30)
    (by rw [O.predictedMean_length, O.seMean_length])
    (O.seMean_nonneg xs (chosen_order O xs d) 30) i

/-! ### C10: frame alignment -/

/-- C10: the point-forecast frame and the confidence frame returned by
`get_forecast` carry the identical future-date index and have the same
number of rows, pairing each prediction with exactly one bounds pair. -/
theorem C10_frame_alignment (O : ArimaOracle) (today : ℕ) (xs : List ℚ)
    (d : ℕ) :
    (get_forecast O today xs d).1.map Prod.fst =
      (get_forecast O today xs d).2.1.map Prod.fst ∧
    (get_forecast O today xs d).1.length =
      (get_forecast O today xs d).2.1.length := by
  have hm : (O.predictedMean xs (chosen_order O xs d) 30).length = 30 :=
    O.predictedMean_length xs (chosen_order O xs d) 30
  have hc : (((O.predictedMean xs (chosen_order O xs d) 30).zip
      (O.seMean xs (chosen_order O xs d) 30)).map
        fun ms => (ms.1 - O.zcrit * ms.2, ms.1 + O.zcrit * ms.2)).length = 30 := by
    rw [List.length_map, List.length_zip, hm, O.seMean_length]
    exact min_self 30
  rw [gf_fst, gf_snd]
  constructor
  · rw [List.map_fst_zip _ _ (by rw [bdayRange_length, hm]),
      List.map_fst_zip _ _ (by rw [bdayRange_length, hc])]
  · rw [List.length_zip, List.length_zip, hm, hc]

/-! ### C8: inverse scaling with a mismatched state -/

/-- C8 counterexample: the inverse transform applied with a scaler state
fitted on a different series (`[0, 2]` instead of `[0, 1]`) silently
returns wrong-scale values `[0, 2]` instead of rejecting the call; the
matching state returns the original `[0, 1]`. -/
theorem C8_counterexample :
    inverse_scaling (scaling [(0 : ℚ), 2]).2 ((scaling [(0 : ℚ), 1]).1) =
      [0, 2] ∧
    inverse_scaling (scaling [(0 : ℚ), 1]).2 ((scaling [(0 : ℚ), 1]).1) =
      [0, 1] ∧
    ([(0 : ℚ), 2] : List ℚ) ≠ [0, 1] := by
  refine ⟨?_, ?_, by norm_num⟩ <;>
    norm_num [scaling, inverse_scaling, listMin, listMax, List.foldl,
      transform1, inverse1, handledScale, min_def, max_def]

/-- C8 (amended): `inverse_scaling` performs no validation of the supplied
scaler state: it unconditionally applies the state's affine map to every
value, so a state not produced by the same run's forward transform silently
yields wrong-scale values, and no error path exists in the core. -/
theorem C8_no_state_validation (st : MinMaxState) (ys : List ℚ) :
    inverse_scaling st ys =
      ys.map (fun y => y * handledScale st + st.dataMin) ∧
    (inverse_scaling st ys).length = ys.length :=
  ⟨rfl, by simp [inverse_scaling]⟩

/-! ### C9: input validation -/

/-- C9 counterexample: on the empty series no rejection happens before
model work: `fit_model` runs the full grid search (returning the exhausted
fallback order) and produces an ordinary forecast, and `evaluate_model`
returns an ordinary rounded RMSE, rather than reporting a data error. -/
theorem C9_counterexample :
    (fit_model constOracle [] 0 30).2.2 = (20, 0, 10) ∧
    (fit_model constOracle [] 0 30).1 = List.replicate 30 0 ∧
    evaluate_model constOracle [] 0 = 0 := by
  refine ⟨rfl, rfl, ?_⟩
  have h1 : evaluate_mse constOracle [] 0 = 0 := by
    simp [evaluate_mse, pysliceLast, pysliceDropLast, meanSqErr]
  unfold evaluate_model
  rw [h1]
  norm_num [Real.sqrt_zero, round4R, roundHalfEvenR]

/-- C9 (amended): the core performs no input validation: any series —
empty, too short, or otherwise — is passed straight into Python slicing and
model fitting.  For a series of at most 30 observations the training slice
is empty and the test slice is the entire series, and evaluation proceeds
by fitting on the empty list. -/
theorem C9_no_input_validation (O : ArimaOracle) (xs : List ℚ) (d : ℕ)
    (h : xs.length ≤ 30) :
    pysliceDropLast xs 30 = [] ∧
    pysliceLast xs 30 = xs ∧
    evaluate_mse O xs d = meanSqErr xs ((fit_model O [] d 30).1) := by
  have h0 : xs.length - 30 = 0 := Nat.sub_eq_zero_of_le h
  have h1 : pysliceDropLast xs 30 = [] := by
    unfold pysliceDropLast
    rw [h0, List.take_zero]
  have h2 : pysliceLast xs 30 = xs := by
    unfold pysliceLast
    rw [h0, List.drop_zero]
  refine ⟨h1, h2, ?_⟩
  unfold evaluate_mse
  rw [h1, h2]

/-- Witness for C9 (amended) at a concrete one-point series. -/
theorem C9_no_input_validation_witness :
    pysliceDropLast [(1 : ℚ)] 30 = [] ∧
    pysliceLast [(1 : ℚ)] 30 = [(1 : ℚ)] ∧
    evaluate_mse constOracle [(1 : ℚ)] 0 =
      meanSqErr [(1 : ℚ)] ((fit_model constOracle [] 0 30).1) :=
  C9_no_input_validation constOracle [(1 : ℚ)] 0 (by decide)

end ModelTrain
